import Mathlib

/-!
Shallow embedding of the realtime presence / messaging subsystem of the
Axolotl music network backend (`backend/src/lib/socket.js`).

The server keeps three pieces of in-memory state:
* `userSockets : Map userId socketId` — the presence registry;
* `userActivities : Map userId activityLabel` — the activity tracker;
* per-socket `handshake.auth.userId` — set by the `user_connected` handler.

JavaScript `Map` semantics are modelled by association lists:
`set` overwrites an existing key in place (keeping its position) and
appends a new key at the end; `get` returns the value of the (unique)
key; `delete` removes the entry; iteration (`entries()`) follows
insertion order, which matters for the linear scan in the `disconnect`
handler.

Each inbound event is handled atomically (single-threaded event loop);
a handler maps the current state to a new state plus a list of
emissions.  `io.emit` is a broadcast (`EmitTarget.toAll`),
`io.to(sid).emit` and `socket.emit` are directed
(`EmitTarget.toSocket`).  The outcome of the external
`Message.create` call in `send_message` is an explicit
`Except String Message` input of the event (success carries the
persisted message, failure carries `error.message`).
-/

namespace Axolotl

abbrev UserId := String
abbrev SocketId := String

/-- JS `Map.prototype.set`: overwrite in place, else append. -/
def mapSet {α β : Type} [DecidableEq α] : List (α × β) → α → β → List (α × β)
  | [], k, v => [(k, v)]
  | (k', v') :: rest, k, v =>
    if k' = k then (k, v) :: rest else (k', v') :: mapSet rest k v

/-- JS `Map.prototype.get`: value of the key, if present. -/
def mapGet {α β : Type} [DecidableEq α] : List (α × β) → α → Option β
  | [], _ => none
  | (k', v') :: rest, k => if k' = k then some v' else mapGet rest k

/-- JS `Map.prototype.delete`: remove the entry of the key. -/
def mapDelete {α β : Type} [DecidableEq α] : List (α × β) → α → List (α × β)
  | [], _ => []
  | (k', v') :: rest, k => if k' = k then rest else (k', v') :: mapDelete rest k

/-- The `disconnect` handler's scan `for (const [userId, socketId] of
userSockets.entries()) { if (socketId === socket.id) ... break }`:
first identity (in insertion order) whose stored socket id equals `c`. -/
def findBySocket : List (UserId × SocketId) → SocketId → Option UserId
  | [], _ => none
  | (u, sid) :: rest, c => if sid = c then some u else findBySocket rest c

/-- The persisted chat message returned by `Message.create`
(server-assigned id; the socket layer never inspects it). -/
structure Message where
  id : Nat
  senderId : UserId
  receiverId : UserId
  content : String
deriving DecidableEq, Repr

/-- Inbound events of `socket.js`, with their payloads.  For
`send_message` the outcome of the external storage write is part of the
event. -/
inductive InEvent where
  | user_connected (userId : UserId)
  | update_activity (userId : UserId) (activity : String)
  | profile_updated (updatedUser : String)
  | follow_request (targetUserId requesterId requesterName requesterImageUrl : String)
  | follow_accepted (requesterId accepterId accepterName accepterImageUrl : String)
  | follow_back_request (targetUserId requesterId requesterName requesterImageUrl : String)
  | follow_back_available (userId userName userImageUrl : String)
  | send_message (senderId receiverId content : String) (persist : Except String Message)
  | disconnect
deriving Repr

/-- Outbound events emitted by the handlers. -/
inductive OutEvent where
  | user_connected (userId : UserId)
  | users_online (userIds : List UserId)
  | activities (entries : List (UserId × String))
  | activity_updated (userId : UserId) (activity : String)
  | profile_updated (updatedUser : String)
  | follow_request (requesterId requesterName requesterImageUrl : String)
  | follow_accepted (accepterId accepterName accepterImageUrl : String)
  | follow_back_request (requesterId requesterName requesterImageUrl : String)
  | follow_back_available (userId userName userImageUrl : String)
  | receive_message (msg : Message)
  | message_sent (msg : Message)
  | message_error (errMsg : String)
  | user_disconnected (userId : UserId)
deriving DecidableEq, Repr

/-- Emission target: `io.emit` reaches every connection, while
`io.to(sid).emit` and `socket.emit` reach exactly one. -/
inductive EmitTarget where
  | toAll
  | toSocket (sid : SocketId)
deriving DecidableEq, Repr

structure Emission where
  target : EmitTarget
  event : OutEvent
deriving DecidableEq, Repr

/-- The server's shared mutable state: the two maps closed over by
`initializeSocket`, plus each socket's `handshake.auth.userId`. -/
structure SocketState where
  userSockets : List (UserId × SocketId)
  userActivities : List (UserId × String)
  handshakeAuth : List (SocketId × UserId)
deriving DecidableEq, Repr

def initState : SocketState := ⟨[], [], []⟩

/-- One inbound event, handled on the connection with socket id `sid`,
transcribed handler by handler from `socket.js`.  Socket ids are
nonempty strings, so the JS truthiness tests `if (targetSocketId)`
coincide with presence in the map (`some` vs `undefined`). -/
def handleEvent (st : SocketState) (sid : SocketId) (e : InEvent) :
    SocketState × List Emission :=
  match e with
  | .user_connected userId =>
    let sockets := mapSet st.userSockets userId sid
    let acts := mapSet st.userActivities userId "Idle"
    (⟨sockets, acts, mapSet st.handshakeAuth sid userId⟩,
     [⟨.toAll, .user_connected userId⟩,
      ⟨.toSocket sid, .users_online (sockets.map Prod.fst)⟩,
      ⟨.toAll, .activities acts⟩])
  | .update_activity userId activity =>
    ({ st with userActivities := mapSet st.userActivities userId activity },
     [⟨.toAll, .activity_updated userId activity⟩])
  | .profile_updated updatedUser =>
    (st, [⟨.toAll, .profile_updated updatedUser⟩])
  | .follow_request targetUserId requesterId requesterName requesterImageUrl =>
    match mapGet st.userSockets targetUserId with
    | some targetSocketId =>
      (st, [⟨.toSocket targetSocketId,
             .follow_request requesterId requesterName requesterImageUrl⟩])
    | none => (st, [])
  | .follow_accepted requesterId accepterId accepterName accepterImageUrl =>
    match mapGet st.userSockets requesterId with
    | some requesterSocketId =>
      (st, [⟨.toSocket requesterSocketId,
             .follow_accepted accepterId accepterName accepterImageUrl⟩])
    | none => (st, [])
  | .follow_back_request targetUserId requesterId requesterName requesterImageUrl =>
    match mapGet st.userSockets targetUserId with
    | some targetSocketId =>
      (st, [⟨.toSocket targetSocketId,
             .follow_back_request requesterId requesterName requesterImageUrl⟩])
    | none => (st, [])
  | .follow_back_available userId userName userImageUrl =>
    match mapGet st.handshakeAuth sid with
    | some authUserId =>
      match mapGet st.userSockets authUserId with
      | some socketId =>
        (st, [⟨.toSocket socketId,
               .follow_back_available userId userName userImageUrl⟩])
      | none => (st, [])
    | none => (st, [])
  | .send_message _ receiverId _ persist =>
    match persist with
    | .ok message =>
      let recvEmits :=
        match mapGet st.userSockets receiverId with
        | some receiverSocketId =>
          [(⟨.toSocket receiverSocketId, .receive_message message⟩ : Emission)]
        | none => []
      (st, recvEmits ++ [⟨.toSocket sid, .message_sent message⟩])
    | .error err => (st, [⟨.toSocket sid, .message_error err⟩])
  | .disconnect =>
    match findBySocket st.userSockets sid with
    | some disconnectedUserId =>
      (⟨mapDelete st.userSockets disconnectedUserId,
        mapDelete st.userActivities disconnectedUserId,
        st.handshakeAuth⟩,
       [⟨.toAll, .user_disconnected disconnectedUserId⟩])
    | none => (st, [])

/-- Run a sequence of inbound events (each paired with the socket id of
the connection it arrives on); final state. -/
def runOps (st : SocketState) : List (SocketId × InEvent) → SocketState
  | [] => st
  | (sid, e) :: rest => runOps (handleEvent st sid e).1 rest

/-- Run a sequence of inbound events; all emissions, in order. -/
def runTrace (st : SocketState) : List (SocketId × InEvent) → List Emission
  | [] => []
  | (sid, e) :: rest =>
    (handleEvent st sid e).2 ++ runTrace (handleEvent st sid e).1 rest

/-- The inbound events whose handlers are pure event routing: they
read the registry but never mutate any server state. -/
def isRouterOnly : InEvent → Bool
  | .profile_updated _ => true
  | .follow_request _ _ _ _ => true
  | .follow_accepted _ _ _ _ => true
  | .follow_back_request _ _ _ _ => true
  | .follow_back_available _ _ _ => true
  | .send_message _ _ _ _ => true
  | _ => false

/-- Both maps have pairwise-distinct keys (the JS `Map` guarantee). -/
def keysNodup (st : SocketState) : Prop :=
  (st.userSockets.map Prod.fst).Nodup ∧ (st.userActivities.map Prod.fst).Nodup

/-- The registry and the activity tracker hold the same identities. -/
def sameKeys (st : SocketState) : Prop :=
  ∀ u, u ∈ st.userSockets.map Prod.fst ↔ u ∈ st.userActivities.map Prod.fst

/-- Guard for one event: an `update_activity` must name a currently
bound identity; any other event is unconstrained. -/
def activityGuard (st : SocketState) : InEvent → Bool
  | .update_activity u _ => (mapGet st.userSockets u).isSome
  | _ => true

/-- Every `update_activity` event of the run names an identity that is
bound in the registry at the moment the event is handled. -/
def goodActivityOps : SocketState → List (SocketId × InEvent) → Bool
  | _, [] => true
  | st, (sid, e) :: rest =>
    activityGuard st e && goodActivityOps (handleEvent st sid e).1 rest

/-- No two `user_connected` events of the run bind distinct identities
from the same connection (each connection authenticates as one user). -/
def bindsConsistent (ops : List (SocketId × InEvent)) : Bool :=
  ops.all fun op1 => ops.all fun op2 =>
    match op1, op2 with
    | (s1, .user_connected u), (s2, .user_connected v) => s1 != s2 || u == v
    | _, _ => true

/-- A small concrete reachable state: identity `A` bound on socket
`s1` (used to instantiate the disconnect theorem). -/
def stA : SocketState := ⟨[("A", "s1")], [("A", "Idle")], [("s1", "A")]⟩

/-! ### Association-list (JS `Map`) lemmas -/

section MapLemmas

variable {α β : Type} [DecidableEq α]

theorem mapSet_mem {m : List (α × β)} {k : α} {v : β} {p : α × β}
    (h : p ∈ mapSet m k v) : p ∈ m ∨ p = (k, v) := by
  induction m with
  | nil => simpa [mapSet] using h
  | cons q rest ih =>
    by_cases hk : q.1 = k
    · rw [show q = (q.1, q.2) from rfl] at h
      simp only [mapSet, if_pos hk] at h
      rcases List.mem_cons.mp h with h | h
      · exact Or.inr h
      · exact Or.inl (List.mem_cons_of_mem _ h)
    · rw [show q = (q.1, q.2) from rfl] at h
      simp only [mapSet, if_neg hk] at h
      rcases List.mem_cons.mp h with h | h
      · exact Or.inl (by simp [h])
      · rcases ih h with h | h
        · exact Or.inl (List.mem_cons_of_mem _ h)
        · exact Or.inr h

theorem mapGet_eq_some_mem {m : List (α × β)} {k : α} {v : β}
    (h : mapGet m k = some v) : (k, v) ∈ m := by
  induction m with
  | nil => simp [mapGet] at h
  | cons q rest ih =>
    by_cases hk : q.1 = k
    · rw [show q = (q.1, q.2) from rfl] at h
      simp only [mapGet, if_pos hk] at h
      have hv := Option.some.inj h
      exact List.mem_cons.mpr (Or.inl (by rw [← hk, ← hv]))
    · rw [show q = (q.1, q.2) from rfl] at h
      simp only [mapGet, if_neg hk] at h
      exact List.mem_cons_of_mem _ (ih h)

theorem mapGet_mapSet_self (m : List (α × β)) (k : α) (v : β) :
    mapGet (mapSet m k v) k = some v := by
  induction m with
  | nil => simp [mapSet, mapGet]
  | cons q rest ih =>
    by_cases hk : q.1 = k
    · rw [show q = (q.1, q.2) from rfl]
      simp [mapSet, mapGet, if_pos hk]
    · rw [show q = (q.1, q.2) from rfl]
      simp only [mapSet, if_neg hk, mapGet]
      exact ih

theorem mem_keys_mapSet (m : List (α × β)) (k : α) (v : β) (a : α) :
    a ∈ (mapSet m k v).map Prod.fst ↔ a ∈ m.map Prod.fst ∨ a = k := by
  induction m with
  | nil => simp [mapSet]
  | cons q rest ih =>
    by_cases hk : q.1 = k
    · rw [show q = (q.1, q.2) from rfl]
      simp only [mapSet, if_pos hk]
      subst hk
      simp
      tauto
    · rw [show q = (q.1, q.2) from rfl]
      simp only [mapSet, if_neg hk, List.map_cons, List.mem_cons]
      rw [ih]
      tauto

theorem nodup_keys_mapSet {m : List (α × β)} (k : α) (v : β)
    (h : (m.map Prod.fst).Nodup) : ((mapSet m k v).map Prod.fst).Nodup := by
  induction m with
  | nil => simp [mapSet]
  | cons q rest ih =>
    rw [List.map_cons, List.nodup_cons] at h
    by_cases hk : q.1 = k
    · rw [show q = (q.1, q.2) from rfl]
      simp only [mapSet, if_pos hk, List.map_cons, List.nodup_cons]
      subst hk
      exact h
    · rw [show q = (q.1, q.2) from rfl]
      simp only [mapSet, if_neg hk, List.map_cons, List.nodup_cons]
      refine ⟨fun hmem => ?_, ih h.2⟩
      rcases (mem_keys_mapSet rest k v q.1).mp hmem with hmem | hmem
      · exact h.1 hmem
      · exact hk hmem

theorem mapDelete_subset {m : List (α × β)} {k : α} {p : α × β}
    (h : p ∈ mapDelete m k) : p ∈ m := by
  induction m with
  | nil => simp [mapDelete] at h
  | cons q rest ih =>
    by_cases hk : q.1 = k
    · rw [show q = (q.1, q.2) from rfl] at h
      simp only [mapDelete, if_pos hk] at h
      exact List.mem_cons_of_mem _ h
    · rw [show q = (q.1, q.2) from rfl] at h
      simp only [mapDelete, if_neg hk] at h
      rcases List.mem_cons.mp h with h | h
      · simp [h]
      · exact List.mem_cons_of_mem _ (ih h)

theorem mem_mapDelete_iff {m : List (α × β)} {k : α} {p : α × β}
    (h : (m.map Prod.fst).Nodup) : p ∈ mapDelete m k ↔ p ∈ m ∧ p.1 ≠ k := by
  induction m with
  | nil => simp [mapDelete]
  | cons q rest ih =>
    rw [List.map_cons, List.nodup_cons] at h
    by_cases hk : q.1 = k
    · rw [show q = (q.1, q.2) from rfl]
      simp only [mapDelete, if_pos hk, List.mem_cons]
      constructor
      · intro hp
        refine ⟨Or.inr hp, fun hpk => ?_⟩
        exact h.1 (by simpa [← hpk, hk] using List.mem_map_of_mem Prod.fst hp)
      · rintro ⟨hp | hp, hpk⟩
        · exact absurd (by rw [hp]; exact hk) hpk
        · exact hp
    · rw [show q = (q.1, q.2) from rfl]
      simp only [mapDelete, if_neg hk, List.mem_cons]
      rw [ih h.2]
      constructor
      · rintro (hp | ⟨hp, hpk⟩)
        · exact ⟨Or.inl hp, by rw [hp]; exact hk⟩
        · exact ⟨Or.inr hp, hpk⟩
      · rintro ⟨hp | hp, hpk⟩
        · exact Or.inl hp
        · exact Or.inr ⟨hp, hpk⟩

theorem nodup_keys_mapDelete {m : List (α × β)} (k : α)
    (h : (m.map Prod.fst).Nodup) : ((mapDelete m k).map Prod.fst).Nodup := by
  induction m with
  | nil => simp [mapDelete]
  | cons q rest ih =>
    rw [List.map_cons, List.nodup_cons] at h
    by_cases hk : q.1 = k
    · rw [show q = (q.1, q.2) from rfl]
      simpa only [mapDelete, if_pos hk] using h.2
    · rw [show q = (q.1, q.2) from rfl]
      simp only [mapDelete, if_neg hk, List.map_cons, List.nodup_cons]
      refine ⟨fun hmem => ?_, ih h.2⟩
      rcases List.mem_map.mp hmem with ⟨p, hp, hfst⟩
      exact h.1 (hfst ▸ List.mem_map_of_mem Prod.fst (mapDelete_subset hp))

theorem mapGet_mapDelete_self {m : List (α × β)} (k : α)
    (h : (m.map Prod.fst).Nodup) : mapGet (mapDelete m k) k = none := by
  cases hg : mapGet (mapDelete m k) k with
  | none => rfl
  | some v =>
    have hmem := mapGet_eq_some_mem hg
    have := (mem_mapDelete_iff h).mp hmem
    exact absurd rfl this.2

theorem mapGet_isSome_iff_mem_keys (m : List (α × β)) (a : α) :
    (mapGet m a).isSome = true ↔ a ∈ m.map Prod.fst := by
  induction m with
  | nil => simp [mapGet]
  | cons q rest ih =>
    by_cases hk : q.1 = a
    · rw [show q = (q.1, q.2) from rfl]
      simp [mapGet, if_pos hk, hk]
    · rw [show q = (q.1, q.2) from rfl]
      simp only [mapGet, if_neg hk, List.map_cons, List.mem_cons]
      rw [ih]
      constructor
      · exact fun h => Or.inr h
      · rintro (h | h)
        · exact absurd h.symm hk
        · exact h

theorem mem_keys_mapDelete {m : List (α × β)} (k : α) (a : α)
    (h : (m.map Prod.fst).Nodup) :
    a ∈ (mapDelete m k).map Prod.fst ↔ a ∈ m.map Prod.fst ∧ a ≠ k := by
  constructor
  · intro hm
    rcases List.mem_map.mp hm with ⟨p, hp, rfl⟩
    have hp' := (mem_mapDelete_iff h).mp hp
    exact ⟨List.mem_map_of_mem Prod.fst hp'.1, hp'.2⟩
  · rintro ⟨hm, hak⟩
    rcases List.mem_map.mp hm with ⟨p, hp, rfl⟩
    exact List.mem_map_of_mem Prod.fst ((mem_mapDelete_iff h).mpr ⟨hp, hak⟩)

omit [DecidableEq α] in
theorem mem_keyInj {m : List (α × β)} {k : α} {a b : β}
    (h : (m.map Prod.fst).Nodup) (ha : (k, a) ∈ m) (hb : (k, b) ∈ m) :
    a = b := by
  induction m with
  | nil => simp at ha
  | cons q rest ih =>
    rw [List.map_cons, List.nodup_cons] at h
    rcases List.mem_cons.mp ha with ha' | ha'
    · rcases List.mem_cons.mp hb with hb' | hb'
      · rw [← ha'] at hb'
        injection hb' with h1 h2
        exact h2.symm
      · exfalso
        apply h.1
        rw [← ha']
        exact List.mem_map.mpr ⟨(k, b), hb', rfl⟩
    · rcases List.mem_cons.mp hb with hb' | hb'
      · exfalso
        apply h.1
        rw [← hb']
        exact List.mem_map.mpr ⟨(k, a), ha', rfl⟩
      · exact ih h.2 ha' hb'

theorem findBySocket_mem {m : List (UserId × SocketId)} {c : SocketId} {u : UserId}
    (h : findBySocket m c = some u) : (u, c) ∈ m := by
  induction m with
  | nil => simp [findBySocket] at h
  | cons q rest ih =>
    by_cases hs : q.2 = c
    · rw [show q = (q.1, q.2) from rfl] at h
      simp only [findBySocket, if_pos hs] at h
      have hu := Option.some.inj h
      exact List.mem_cons.mpr (Or.inl (by rw [← hu, ← hs]))
    · rw [show q = (q.1, q.2) from rfl] at h
      simp only [findBySocket, if_neg hs] at h
      exact List.mem_cons_of_mem _ (ih h)

theorem findBySocket_eq_none_iff {m : List (UserId × SocketId)} {c : SocketId} :
    findBySocket m c = none ↔ ∀ u, (u, c) ∉ m := by
  induction m with
  | nil => simp [findBySocket]
  | cons q rest ih =>
    by_cases hs : q.2 = c
    · rw [show q = (q.1, q.2) from rfl]
      simp only [findBySocket, if_pos hs]
      constructor
      · intro h
        simp at h
      · intro h
        exact absurd
          (show (q.1, c) ∈ (q.1, q.2) :: rest by
            rw [← hs]; exact List.mem_cons_self _ _)
          (h q.1)
    · rw [show q = (q.1, q.2) from rfl]
      simp only [findBySocket, if_neg hs]
      rw [ih]
      constructor
      · intro h u hmem
        rcases List.mem_cons.mp hmem with hmem | hmem
        · injection hmem with h1 h2
          exact hs h2.symm
        · exact h u hmem
      · intro h u hmem
        exact h u (List.mem_cons_of_mem _ hmem)

theorem findBySocket_of_unique {m : List (UserId × SocketId)} {c : SocketId} {u : UserId}
    (hmem : (u, c) ∈ m) (huniq : ∀ v, (v, c) ∈ m → v = u) :
    findBySocket m c = some u := by
  induction m with
  | nil => simp at hmem
  | cons q rest ih =>
    by_cases hs : q.2 = c
    · rw [show q = (q.1, q.2) from rfl]
      simp only [findBySocket, if_pos hs]
      have hq : q.1 = u := huniq q.1 (by rw [← hs]; exact List.mem_cons_self _ _)
      rw [hq]
    · rw [show q = (q.1, q.2) from rfl]
      simp only [findBySocket, if_neg hs]
      rcases List.mem_cons.mp hmem with hmem' | hmem'
      · rw [← hmem'] at hs
        exact absurd rfl hs
      · exact ih hmem' (fun v hv => huniq v (List.mem_cons_of_mem _ hv))

end MapLemmas

/-! ### State invariants and step lemmas -/

theorem handleEvent_router_frame (st : SocketState) (sid : SocketId) (e : InEvent)
    (h : isRouterOnly e = true) : (handleEvent st sid e).1 = st := by
  cases e with
  | user_connected u => simp [isRouterOnly] at h
  | update_activity u a => simp [isRouterOnly] at h
  | disconnect => simp [isRouterOnly] at h
  | profile_updated u => rfl
  | follow_request t r rn ri =>
    cases hm : mapGet st.userSockets t <;> simp [handleEvent, hm]
  | follow_accepted r a an ai =>
    cases hm : mapGet st.userSockets r <;> simp [handleEvent, hm]
  | follow_back_request t r rn ri =>
    cases hm : mapGet st.userSockets t <;> simp [handleEvent, hm]
  | follow_back_available u un ui =>
    cases hm : mapGet st.handshakeAuth sid with
    | none => simp [handleEvent, hm]
    | some a => cases hm2 : mapGet st.userSockets a <;> simp [handleEvent, hm, hm2]
  | send_message s r c p =>
    cases p with
    | ok m => cases hm : mapGet st.userSockets r <;> simp [handleEvent, hm]
    | error err => rfl

theorem keysNodup_handleEvent (st : SocketState) (sid : SocketId) (e : InEvent)
    (h : keysNodup st) : keysNodup (handleEvent st sid e).1 := by
  cases e with
  | user_connected u =>
    exact ⟨nodup_keys_mapSet _ _ h.1, nodup_keys_mapSet _ _ h.2⟩
  | update_activity u a =>
    exact ⟨h.1, nodup_keys_mapSet _ _ h.2⟩
  | disconnect =>
    cases hm : findBySocket st.userSockets sid with
    | none => simp only [handleEvent, hm]; exact h
    | some u =>
      simp only [handleEvent, hm]
      exact ⟨nodup_keys_mapDelete _ h.1, nodup_keys_mapDelete _ h.2⟩
  | profile_updated u =>
    rw [handleEvent_router_frame st sid (InEvent.profile_updated u) rfl]; exact h
  | follow_request t r rn ri =>
    rw [handleEvent_router_frame st sid (InEvent.follow_request t r rn ri) rfl]; exact h
  | follow_accepted r a an ai =>
    rw [handleEvent_router_frame st sid (InEvent.follow_accepted r a an ai) rfl]; exact h
  | follow_back_request t r rn ri =>
    rw [handleEvent_router_frame st sid (InEvent.follow_back_request t r rn ri) rfl]; exact h
  | follow_back_available u un ui =>
    rw [handleEvent_router_frame st sid (InEvent.follow_back_available u un ui) rfl]; exact h
  | send_message s r c p =>
    rw [handleEvent_router_frame st sid (InEvent.send_message s r c p) rfl]; exact h

theorem keysNodup_runOps (ops : List (SocketId × InEvent)) :
    ∀ st : SocketState, keysNodup st → keysNodup (runOps st ops) := by
  induction ops with
  | nil => intro st h; exact h
  | cons op rest ih =>
    obtain ⟨sid, e⟩ := op
    intro st h
    exact ih _ (keysNodup_handleEvent st sid e h)

theorem keysNodup_initState : keysNodup initState :=
  ⟨List.nodup_nil, List.nodup_nil⟩

/-- Any registry entry after a step either was already there or was
written by this very step's `user_connected` handler. -/
theorem handleEvent_sockets_from {st : SocketState} {sid : SocketId} {e : InEvent}
    {u : UserId} {s : SocketId}
    (h : (u, s) ∈ (handleEvent st sid e).1.userSockets) :
    (u, s) ∈ st.userSockets ∨ (e = InEvent.user_connected u ∧ s = sid) := by
  cases e with
  | user_connected u0 =>
    rcases mapSet_mem (m := st.userSockets) (k := u0) (v := sid) h with h | h
    · exact Or.inl h
    · injection h with h1 h2
      exact Or.inr ⟨by rw [h1], h2⟩
  | update_activity u0 a =>
    simp only [handleEvent] at h
    exact Or.inl h
  | disconnect =>
    revert h
    cases hm : findBySocket st.userSockets sid with
    | none =>
      simp only [handleEvent, hm]
      intro h
      exact Or.inl h
    | some u0 =>
      simp only [handleEvent, hm]
      intro h
      exact Or.inl (mapDelete_subset h)
  | profile_updated u0 =>
    rw [handleEvent_router_frame st sid (InEvent.profile_updated u0) rfl] at h
    exact Or.inl h
  | follow_request t r rn ri =>
    rw [handleEvent_router_frame st sid (InEvent.follow_request t r rn ri) rfl] at h
    exact Or.inl h
  | follow_accepted r a an ai =>
    rw [handleEvent_router_frame st sid (InEvent.follow_accepted r a an ai) rfl] at h
    exact Or.inl h
  | follow_back_request t r rn ri =>
    rw [handleEvent_router_frame st sid (InEvent.follow_back_request t r rn ri) rfl] at h
    exact Or.inl h
  | follow_back_available u0 un ui =>
    rw [handleEvent_router_frame st sid (InEvent.follow_back_available u0 un ui) rfl] at h
    exact Or.inl h
  | send_message s0 r c p =>
    rw [handleEvent_router_frame st sid (InEvent.send_message s0 r c p) rfl] at h
    exact Or.inl h

/-- Every registry entry of the final state is justified by some
`user_connected` event of the run (`Q` abstracts the justification). -/
theorem runOps_sockets_from (Q : UserId → SocketId → Prop)
    (ops : List (SocketId × InEvent)) :
    ∀ st : SocketState,
      (∀ u s, (u, s) ∈ st.userSockets → Q u s) →
      (∀ sid u, (sid, InEvent.user_connected u) ∈ ops → Q u sid) →
      ∀ u s, (u, s) ∈ (runOps st ops).userSockets → Q u s := by
  induction ops with
  | nil => intro st hst _ u s hm; exact hst u s hm
  | cons op rest ih =>
    obtain ⟨sid, e⟩ := op
    intro st hst hops u s hm
    rw [runOps] at hm
    refine ih (handleEvent st sid e).1 ?_ ?_ u s hm
    · intro u' s' hmem
      rcases handleEvent_sockets_from hmem with h | ⟨he, hsid⟩
      · exact hst u' s' h
      · rw [hsid]
        refine hops sid u' ?_
        rw [he]
        exact List.mem_cons_self _ _
    · intro sid' u' hmem
      exact hops sid' u' (List.mem_cons_of_mem _ hmem)

/-! ### Membership consistency of registry and activity tracker -/

theorem sameKeys_handleEvent {st : SocketState} (hn : keysNodup st) (hs : sameKeys st)
    (sid : SocketId) (e : InEvent)
    (hgood : ∀ u a, e = InEvent.update_activity u a →
      (mapGet st.userSockets u).isSome = true) :
    sameKeys (handleEvent st sid e).1 := by
  cases e with
  | user_connected u0 =>
    intro u
    simp only [handleEvent]
    rw [mem_keys_mapSet, mem_keys_mapSet, hs u]
  | update_activity u0 a =>
    intro u
    simp only [handleEvent]
    rw [mem_keys_mapSet, ← hs u]
    have hu0 : u0 ∈ st.userSockets.map Prod.fst :=
      (mapGet_isSome_iff_mem_keys _ _).mp (hgood u0 a rfl)
    constructor
    · exact Or.inl
    · rintro (h | rfl)
      · exact h
      · exact hu0
  | disconnect =>
    cases hm : findBySocket st.userSockets sid with
    | none =>
      simp only [handleEvent, hm]
      exact hs
    | some u0 =>
      intro u
      simp only [handleEvent, hm]
      rw [mem_keys_mapDelete _ _ hn.1, mem_keys_mapDelete _ _ hn.2, hs u]
  | profile_updated u0 =>
    rw [handleEvent_router_frame st sid (InEvent.profile_updated u0) rfl]; exact hs
  | follow_request t r rn ri =>
    rw [handleEvent_router_frame st sid (InEvent.follow_request t r rn ri) rfl]; exact hs
  | follow_accepted r a an ai =>
    rw [handleEvent_router_frame st sid (InEvent.follow_accepted r a an ai) rfl]; exact hs
  | follow_back_request t r rn ri =>
    rw [handleEvent_router_frame st sid (InEvent.follow_back_request t r rn ri) rfl]; exact hs
  | follow_back_available u0 un ui =>
    rw [handleEvent_router_frame st sid (InEvent.follow_back_available u0 un ui) rfl]; exact hs
  | send_message s0 r c p =>
    rw [handleEvent_router_frame st sid (InEvent.send_message s0 r c p) rfl]; exact hs

theorem sameKeys_runOps (ops : List (SocketId × InEvent)) :
    ∀ st : SocketState, keysNodup st → sameKeys st →
      goodActivityOps st ops = true → sameKeys (runOps st ops) := by
  induction ops with
  | nil => intro st _ hs _; exact hs
  | cons op rest ih =>
    obtain ⟨sid, e⟩ := op
    intro st hn hs hg
    rw [goodActivityOps, Bool.and_eq_true] at hg
    rw [runOps]
    refine ih _ (keysNodup_handleEvent st sid e hn) ?_ hg.2
    refine sameKeys_handleEvent hn hs sid e ?_
    intro u a he
    have h1 := hg.1
    rw [he] at h1
    exact h1

theorem activityGuard_update {st : SocketState} {u : UserId} {a : String}
    (h : activityGuard st (InEvent.update_activity u a) = true) :
    (mapGet st.userSockets u).isSome = true := h

/-! ### No directed emission to a connection the registry has forgotten -/

theorem handleEvent_no_emit_to_dead {st : SocketState} {s1 : SocketId}
    (hval : ∀ p ∈ st.userSockets, p.2 ≠ s1) {sid : SocketId} (hsid : sid ≠ s1)
    (e : InEvent) :
    (∀ p ∈ (handleEvent st sid e).1.userSockets, p.2 ≠ s1) ∧
    (∀ em ∈ (handleEvent st sid e).2, em.target ≠ EmitTarget.toSocket s1) := by
  have hget : ∀ k t, mapGet st.userSockets k = some t → t ≠ s1 := by
    intro k t hm
    exact hval (k, t) (mapGet_eq_some_mem hm)
  cases e with
  | user_connected u0 =>
    constructor
    · intro p hp
      rcases mapSet_mem hp with hp | hp
      · exact hval p hp
      · rw [hp]; exact hsid
    · intro em hem
      simp only [handleEvent, List.mem_cons] at hem
      rcases hem with rfl | rfl | rfl | hem
      · simp
      · simp [hsid]
      · simp
      · simp at hem
  | update_activity u0 a =>
    constructor
    · intro p hp
      simp only [handleEvent] at hp
      exact hval p hp
    · intro em hem
      simp only [handleEvent, List.mem_cons] at hem
      rcases hem with rfl | hem
      · simp
      · simp at hem
  | profile_updated u0 =>
    refine ⟨?_, ?_⟩
    · intro p hp
      rw [handleEvent_router_frame st sid (InEvent.profile_updated u0) rfl] at hp
      exact hval p hp
    · intro em hem
      simp only [handleEvent, List.mem_cons] at hem
      rcases hem with rfl | hem
      · simp
      · simp at hem
  | follow_request t r rn ri =>
    refine ⟨?_, ?_⟩
    · intro p hp
      rw [handleEvent_router_frame st sid (InEvent.follow_request t r rn ri) rfl] at hp
      exact hval p hp
    · intro em hem
      revert hem
      cases hm : mapGet st.userSockets t with
      | none => simp [handleEvent, hm]
      | some ts =>
        simp only [handleEvent, hm, List.mem_cons]
        rintro (rfl | hem)
        · simp [hget t ts hm]
        · simp at hem
  | follow_accepted r a an ai =>
    refine ⟨?_, ?_⟩
    · intro p hp
      rw [handleEvent_router_frame st sid (InEvent.follow_accepted r a an ai) rfl] at hp
      exact hval p hp
    · intro em hem
      revert hem
      cases hm : mapGet st.userSockets r with
      | none => simp [handleEvent, hm]
      | some ts =>
        simp only [handleEvent, hm, List.mem_cons]
        rintro (rfl | hem)
        · simp [hget r ts hm]
        · simp at hem
  | follow_back_request t r rn ri =>
    refine ⟨?_, ?_⟩
    · intro p hp
      rw [handleEvent_router_frame st sid (InEvent.follow_back_request t r rn ri) rfl] at hp
      exact hval p hp
    · intro em hem
      revert hem
      cases hm : mapGet st.userSockets t with
      | none => simp [handleEvent, hm]
      | some ts =>
        simp only [handleEvent, hm, List.mem_cons]
        rintro (rfl | hem)
        · simp [hget t ts hm]
        · simp at hem
  | follow_back_available u0 un ui =>
    refine ⟨?_, ?_⟩
    · intro p hp
      rw [handleEvent_router_frame st sid (InEvent.follow_back_available u0 un ui) rfl] at hp
      exact hval p hp
    · intro em hem
      revert hem
      cases ha : mapGet st.handshakeAuth sid with
      | none => simp [handleEvent, ha]
      | some a0 =>
        cases hm : mapGet st.userSockets a0 with
        | none => simp [handleEvent, ha, hm]
        | some ts =>
          simp only [handleEvent, ha, hm, List.mem_cons]
          rintro (rfl | hem)
          · simp [hget a0 ts hm]
          · simp at hem
  | send_message s0 r c pr =>
    refine ⟨?_, ?_⟩
    · intro p hp
      rw [handleEvent_router_frame st sid (InEvent.send_message s0 r c pr) rfl] at hp
      exact hval p hp
    · intro em hem
      revert hem
      cases pr with
      | ok m =>
        cases hm : mapGet st.userSockets r with
        | none =>
          simp only [handleEvent, hm, List.nil_append, List.mem_cons]
          rintro (rfl | hem)
          · simp [hsid]
          · simp at hem
        | some ts =>
          simp only [handleEvent, hm, List.cons_append, List.nil_append, List.mem_cons]
          rintro (rfl | rfl | hem)
          · simp [hget r ts hm]
          · simp [hsid]
          · simp at hem
      | error err =>
        simp only [handleEvent, List.mem_cons]
        rintro (rfl | hem)
        · simp [hsid]
        · simp at hem
  | disconnect =>
    refine ⟨?_, ?_⟩
    · intro p hp
      revert hp
      cases hm : findBySocket st.userSockets sid with
      | none =>
        simp only [handleEvent, hm]
        exact hval p
      | some u0 =>
        simp only [handleEvent, hm]
        intro hp
        exact hval p (mapDelete_subset hp)
    · intro em hem
      revert hem
      cases hm : findBySocket st.userSockets sid with
      | none => simp [handleEvent, hm]
      | some u0 =>
        simp only [handleEvent, hm, List.mem_cons]
        rintro (rfl | hem)
        · simp
        · simp at hem

theorem runTrace_no_emit_to_dead (s1 : SocketId) (ops : List (SocketId × InEvent)) :
    ∀ st : SocketState, (∀ p ∈ st.userSockets, p.2 ≠ s1) →
      (∀ op ∈ ops, op.1 ≠ s1) →
      ∀ em ∈ runTrace st ops, em.target ≠ EmitTarget.toSocket s1 := by
  induction ops with
  | nil => intro st _ _ em hem; simp [runTrace] at hem
  | cons op rest ih =>
    obtain ⟨sid, e⟩ := op
    intro st hval hops em hem
    rw [runTrace] at hem
    have hsid : sid ≠ s1 := hops (sid, e) (List.mem_cons_self _ _)
    have hstep := handleEvent_no_emit_to_dead hval hsid e
    rcases List.mem_append.mp hem with hem | hem
    · exact hstep.2 em hem
    · exact ih (handleEvent st sid e).1 hstep.1
        (fun op hop => hops op (List.mem_cons_of_mem _ hop)) em hem

/-! ### Auxiliary facts for the claims -/

theorem bindsConsistent_spec {ops : List (SocketId × InEvent)}
    (h : bindsConsistent ops = true) {s : SocketId} {u v : UserId}
    (hu : (s, InEvent.user_connected u) ∈ ops)
    (hv : (s, InEvent.user_connected v) ∈ ops) : u = v := by
  have h1 := List.all_eq_true.mp h _ hu
  have h2 := List.all_eq_true.mp h1 _ hv
  simp at h2
  exact h2

/-! ### The claims -/

/-- Claim C1: for a `send_message` event whose persistence succeeds,
exactly one `message_sent` emission with the persisted message goes to
the sender's connection; exactly one `receive_message` with the same
message goes to the receiver's connection if and only if the receiver
is bound in the registry; and no emission reaches any other
connection. -/
theorem c1_send_message_success (st : SocketState) (sid : SocketId)
    (senderId receiverId content : String) (msg : Message) :
    (∀ r, mapGet st.userSockets receiverId = some r →
      (handleEvent st sid (InEvent.send_message senderId receiverId content
          (Except.ok msg))).2 =
        [⟨EmitTarget.toSocket r, OutEvent.receive_message msg⟩,
         ⟨EmitTarget.toSocket sid, OutEvent.message_sent msg⟩]) ∧
    (mapGet st.userSockets receiverId = none →
      (handleEvent st sid (InEvent.send_message senderId receiverId content
          (Except.ok msg))).2 =
        [⟨EmitTarget.toSocket sid, OutEvent.message_sent msg⟩]) ∧
    (∀ em ∈ (handleEvent st sid (InEvent.send_message senderId receiverId content
        (Except.ok msg))).2,
      em = ⟨EmitTarget.toSocket sid, OutEvent.message_sent msg⟩ ∨
      ∃ r, mapGet st.userSockets receiverId = some r ∧
        em = ⟨EmitTarget.toSocket r, OutEvent.receive_message msg⟩) := by
  cases hm : mapGet st.userSockets receiverId with
  | none =>
    refine ⟨?_, ?_, ?_⟩
    · intro r hr
      exact Option.noConfusion hr
    · intro _
      simp [handleEvent, hm]
    · intro em hem
      simp only [handleEvent, hm, List.nil_append, List.mem_cons] at hem
      rcases hem with rfl | hem
      · exact Or.inl rfl
      · simp at hem
  | some r0 =>
    refine ⟨?_, ?_, ?_⟩
    · intro r hr
      injection hr with hr
      subst hr
      simp [handleEvent, hm]
    · intro h0
      exact Option.noConfusion h0
    · intro em hem
      simp only [handleEvent, hm, List.cons_append, List.nil_append,
        List.mem_cons] at hem
      rcases hem with rfl | rfl | hem
      · exact Or.inr ⟨r0, rfl, rfl⟩
      · exact Or.inl rfl
      · simp at hem

theorem c1_witness :
    (handleEvent (⟨[("B", "s2")], [], []⟩ : SocketState) "s1"
        (InEvent.send_message "A" "B" "hi" (Except.ok ⟨1, "A", "B", "hi"⟩))).2 =
      [⟨EmitTarget.toSocket "s2", OutEvent.receive_message ⟨1, "A", "B", "hi"⟩⟩,
       ⟨EmitTarget.toSocket "s1", OutEvent.message_sent ⟨1, "A", "B", "hi"⟩⟩] :=
  (c1_send_message_success ⟨[("B", "s2")], [], []⟩ "s1" "A" "B" "hi"
    ⟨1, "A", "B", "hi"⟩).1 "s2" (by decide)

/-- Claim C2: for a `send_message` event whose persistence fails,
exactly one `message_error` emission carrying the error description
goes to the sender's connection and nothing else is emitted; the whole
server state (registry, activity map, auth) is unchanged. -/
theorem c2_send_message_failure (st : SocketState) (sid : SocketId)
    (senderId receiverId content err : String) :
    (handleEvent st sid (InEvent.send_message senderId receiverId content
        (Except.error err))).1 = st ∧
    (handleEvent st sid (InEvent.send_message senderId receiverId content
        (Except.error err))).2 =
      [⟨EmitTarget.toSocket sid, OutEvent.message_error err⟩] :=
  ⟨rfl, rfl⟩

/-- Claim C3 counterexample: if one connection (`s1`) binds identity
`A` and then identity `B` via two `user_connected` events, the
registry holds two distinct identities mapping to the same connection,
so the claim is false for an arbitrary sequence of binds/unbinds. -/
theorem c3_counterexample :
    ¬ (∀ u v c, (u, c) ∈ (runOps initState [("s1", InEvent.user_connected "A"),
          ("s1", InEvent.user_connected "B")]).userSockets →
        (v, c) ∈ (runOps initState [("s1", InEvent.user_connected "A"),
          ("s1", InEvent.user_connected "B")]).userSockets → u = v) := by
  intro h
  have hab : ("A" : UserId) = "B" := h "A" "B" "s1" (by decide) (by decide)
  exact absurd hab (by decide)

/-- Claim C3 (amended): for every sequence of bind (`user_connected`)
and unbind (`disconnect`) operations starting from the empty registry,
provided no connection binds two distinct identities, the registry
never holds two entries with distinct identities mapping to the same
connection. -/
theorem c3_no_shared_connection (ops : List (SocketId × InEvent))
    (h : bindsConsistent ops = true) :
    ∀ u v c, (u, c) ∈ (runOps initState ops).userSockets →
      (v, c) ∈ (runOps initState ops).userSockets → u = v := by
  intro u v c hu hv
  have key : ∀ w s, (w, s) ∈ (runOps initState ops).userSockets →
      (s, InEvent.user_connected w) ∈ ops :=
    runOps_sockets_from (fun w s => (s, InEvent.user_connected w) ∈ ops) ops
      initState (by intro w s hm; simp [initState] at hm) (fun sid w hm => hm)
  exact bindsConsistent_spec h (key u c hu) (key v c hv)

theorem c3_witness :
    bindsConsistent [("s1", InEvent.user_connected "A"),
      ("s2", InEvent.user_connected "B"), ("s1", InEvent.disconnect)] = true ∧
    (∀ u v c, (u, c) ∈ (runOps initState [("s1", InEvent.user_connected "A"),
        ("s2", InEvent.user_connected "B"), ("s1", InEvent.disconnect)]).userSockets →
      (v, c) ∈ (runOps initState [("s1", InEvent.user_connected "A"),
        ("s2", InEvent.user_connected "B"), ("s1", InEvent.disconnect)]).userSockets →
      u = v) :=
  ⟨by decide, c3_no_shared_connection _ (by decide)⟩

/-- Claim C4: on disconnect of connection `c` in a reachable state, if
`u` is the (unique) identity whose stored connection equals `c`, then
exactly `u`'s presence and activity entries are removed (any removed
registry entry is literally `(u, c)`, never one holding a newer
connection), a single `user_disconnected u` broadcast is emitted, and
`u` no longer resolves afterwards; if no identity maps to `c`, the
state is unchanged and nothing is emitted. -/
theorem c4_disconnect_removes_exactly_matching (ops : List (SocketId × InEvent))
    (st : SocketState) (hreach : st = runOps initState ops) (c : SocketId) :
    (∀ u, (u, c) ∈ st.userSockets →
      (∀ v, (v, c) ∈ st.userSockets → v = u) →
      (handleEvent st c InEvent.disconnect).1.userSockets
          = mapDelete st.userSockets u ∧
      (handleEvent st c InEvent.disconnect).1.userActivities
          = mapDelete st.userActivities u ∧
      (handleEvent st c InEvent.disconnect).2
          = [⟨EmitTarget.toAll, OutEvent.user_disconnected u⟩] ∧
      mapGet (handleEvent st c InEvent.disconnect).1.userSockets u = none ∧
      mapGet (handleEvent st c InEvent.disconnect).1.userActivities u = none ∧
      (∀ p ∈ st.userSockets,
        p ∉ (handleEvent st c InEvent.disconnect).1.userSockets → p = (u, c))) ∧
    ((∀ u, (u, c) ∉ st.userSockets) →
      (handleEvent st c InEvent.disconnect).1 = st ∧
      (handleEvent st c InEvent.disconnect).2 = []) := by
  have hn : keysNodup st := by
    rw [hreach]
    exact keysNodup_runOps ops initState keysNodup_initState
  constructor
  · intro u hmem huniq
    have hfind : findBySocket st.userSockets c = some u :=
      findBySocket_of_unique hmem huniq
    refine ⟨?_, ?_, ?_, ?_, ?_, ?_⟩
    · simp [handleEvent, hfind]
    · simp [handleEvent, hfind]
    · simp [handleEvent, hfind]
    · simp only [handleEvent, hfind]
      exact mapGet_mapDelete_self u hn.1
    · simp only [handleEvent, hfind]
      exact mapGet_mapDelete_self u hn.2
    · intro p hp hnp
      simp only [handleEvent, hfind] at hnp
      have hp1 : p.1 = u := by
        by_contra hne
        exact hnp ((mem_mapDelete_iff hn.1).mpr ⟨hp, hne⟩)
      have hp2 : p.2 = c := by
        refine mem_keyInj hn.1 ?_ hmem
        rw [← hp1]
        exact hp
      rw [← hp1, ← hp2]
  · intro hnone
    have hfind : findBySocket st.userSockets c = none :=
      findBySocket_eq_none_iff.mpr hnone
    exact ⟨by simp [handleEvent, hfind], by simp [handleEvent, hfind]⟩

theorem c4_witness :
    (handleEvent stA "s1" InEvent.disconnect).1.userSockets
        = mapDelete stA.userSockets "A" ∧
    (handleEvent stA "s1" InEvent.disconnect).1.userActivities
        = mapDelete stA.userActivities "A" ∧
    (handleEvent stA "s1" InEvent.disconnect).2
        = [⟨EmitTarget.toAll, OutEvent.user_disconnected "A"⟩] ∧
    mapGet (handleEvent stA "s1" InEvent.disconnect).1.userSockets "A" = none ∧
    mapGet (handleEvent stA "s1" InEvent.disconnect).1.userActivities "A" = none ∧
    (∀ p ∈ stA.userSockets,
      p ∉ (handleEvent stA "s1" InEvent.disconnect).1.userSockets → p = ("A", "s1")) :=
  (c4_disconnect_removes_exactly_matching [("s1", InEvent.user_connected "A")]
    stA (by decide) "s1").1 "A" (by decide)
    (by intro v hv; simp [stA] at hv; exact hv)

/-- Claim C5: `user_connected` on connection `sid` binding identity
`u` records (or overwrites) the registry entry of `u` as `sid`, sets
`u`'s activity to the default `"Idle"`, broadcasts `user_connected u`
to all connections, sends the full online list (`users_online`) only
to the binding connection, and broadcasts the full activity snapshot
(`activities`) to all connections; the emitted online list is exactly
the identities currently resolvable in the registry. -/
theorem c5_user_connected_effects (st : SocketState) (sid : SocketId) (u : UserId) :
    mapGet (handleEvent st sid (InEvent.user_connected u)).1.userSockets u
        = some sid ∧
    mapGet (handleEvent st sid (InEvent.user_connected u)).1.userActivities u
        = some "Idle" ∧
    (handleEvent st sid (InEvent.user_connected u)).2 =
      [⟨EmitTarget.toAll, OutEvent.user_connected u⟩,
       ⟨EmitTarget.toSocket sid, OutEvent.users_online
         ((handleEvent st sid (InEvent.user_connected u)).1.userSockets.map
           Prod.fst)⟩,
       ⟨EmitTarget.toAll, OutEvent.activities
         (handleEvent st sid (InEvent.user_connected u)).1.userActivities⟩] ∧
    (∀ v, v ∈ (handleEvent st sid (InEvent.user_connected u)).1.userSockets.map
        Prod.fst ↔
      (mapGet (handleEvent st sid (InEvent.user_connected u)).1.userSockets
        v).isSome = true) := by
  refine ⟨?_, ?_, rfl, ?_⟩
  · exact mapGet_mapSet_self _ _ _
  · exact mapGet_mapSet_self _ _ _
  · intro v
    exact (mapGet_isSome_iff_mem_keys _ _).symm

/-- Claim C6: a `follow_request` targeting identity `B` is delivered
as a single `follow_request` emission to `B`'s connection — with the
payload reshaped to `{requesterId, requesterName, requesterImageUrl}`,
the routing-only `targetUserId` excluded — when `B` is bound; when `B`
is not bound nothing is emitted (no error to the sender); the server
state is unchanged in both cases. -/
theorem c6_follow_request_delivery (st : SocketState) (sid : SocketId)
    (targetUserId requesterId requesterName requesterImageUrl : String) :
    (handleEvent st sid (InEvent.follow_request targetUserId requesterId
        requesterName requesterImageUrl)).1 = st ∧
    (∀ t, mapGet st.userSockets targetUserId = some t →
      (handleEvent st sid (InEvent.follow_request targetUserId requesterId
          requesterName requesterImageUrl)).2 =
        [⟨EmitTarget.toSocket t, OutEvent.follow_request requesterId
            requesterName requesterImageUrl⟩]) ∧
    (mapGet st.userSockets targetUserId = none →
      (handleEvent st sid (InEvent.follow_request targetUserId requesterId
          requesterName requesterImageUrl)).2 = []) := by
  refine ⟨handleEvent_router_frame st sid (InEvent.follow_request targetUserId
    requesterId requesterName requesterImageUrl) rfl, ?_, ?_⟩
  · intro t ht
    simp [handleEvent, ht]
  · intro ht
    simp [handleEvent, ht]

theorem c6_witness :
    (handleEvent (⟨[("B", "s2")], [], []⟩ : SocketState) "s1"
        (InEvent.follow_request "B" "A" "Alice" "img")).2 =
      [⟨EmitTarget.toSocket "s2", OutEvent.follow_request "A" "Alice" "img"⟩] :=
  (c6_follow_request_delivery ⟨[("B", "s2")], [], []⟩ "s1" "B" "A" "Alice"
    "img").2.1 "s2" (by decide)

/-- Claim C7: `follow_back_available` resolves its target from the
sending connection's own stored `handshake.auth` identity (set at bind
time), never from the event payload; if that identity resolves to a
connection the payload `{userId, userName, userImageUrl}` is emitted
to exactly that connection, otherwise nothing is emitted; the state is
unchanged. -/
theorem c7_follow_back_available_routing (st : SocketState) (sid : SocketId)
    (userId userName userImageUrl : String) :
    (handleEvent st sid (InEvent.follow_back_available userId userName
        userImageUrl)).1 = st ∧
    (∀ a t, mapGet st.handshakeAuth sid = some a →
      mapGet st.userSockets a = some t →
      (handleEvent st sid (InEvent.follow_back_available userId userName
          userImageUrl)).2 =
        [⟨EmitTarget.toSocket t, OutEvent.follow_back_available userId userName
            userImageUrl⟩]) ∧
    (mapGet st.handshakeAuth sid = none →
      (handleEvent st sid (InEvent.follow_back_available userId userName
          userImageUrl)).2 = []) ∧
    (∀ a, mapGet st.handshakeAuth sid = some a → mapGet st.userSockets a = none →
      (handleEvent st sid (InEvent.follow_back_available userId userName
          userImageUrl)).2 = []) := by
  refine ⟨handleEvent_router_frame st sid (InEvent.follow_back_available userId
    userName userImageUrl) rfl, ?_, ?_, ?_⟩
  · intro a t ha ht
    simp [handleEvent, ha, ht]
  · intro ha
    simp [handleEvent, ha]
  · intro a ha ht
    simp [handleEvent, ha, ht]

theorem c7_witness :
    (handleEvent stA "s1" (InEvent.follow_back_available "B" "Bob" "img")).2 =
      [⟨EmitTarget.toSocket "s1", OutEvent.follow_back_available "B" "Bob" "img"⟩] :=
  (c7_follow_back_available_routing stA "s1" "B" "Bob" "img").2.1
    "A" "s1" (by decide) (by decide)

/-- Claim C8 counterexample: an `update_activity` for an identity that
is not bound (here, from the empty initial state) creates an activity
entry with no matching presence entry, so registry and activity-map
membership diverge — outside any connect window. -/
theorem c8_counterexample :
    ¬ sameKeys (runOps initState
      [("s1", InEvent.update_activity "A" "Listening")]) := by
  intro h
  have h2 := (h "A").mpr (by decide)
  exact absurd h2 (by decide)

/-- Claim C8 (amended): after every sequence of operations in which
each `update_activity` event names an identity bound in the registry
at the moment it is handled, the registry and the activity tracker
have the same membership.  (`user_connected` writes both maps in the
same step, so no exception window is needed.) -/
theorem c8_same_membership (ops : List (SocketId × InEvent))
    (h : goodActivityOps initState ops = true) :
    sameKeys (runOps initState ops) :=
  sameKeys_runOps ops initState keysNodup_initState (fun _ => Iff.rfl) h

theorem c8_witness :
    goodActivityOps initState [("s1", InEvent.user_connected "A"),
      ("s1", InEvent.update_activity "A" "Playing")] = true ∧
    sameKeys (runOps initState [("s1", InEvent.user_connected "A"),
      ("s1", InEvent.update_activity "A" "Playing")]) :=
  ⟨by decide, c8_same_membership _ (by decide)⟩

/-- Claim C9: after two sequential binds of identity `U` on
connections `s1` then `s2` (no intervening disconnect), the registry
resolves `U` to the second connection `s2`; and along any subsequent
run in which the dead first connection `s1` originates no events, no
directed emission ever targets `s1` — the router never contacts the
first connection again. -/
theorem c9_last_connection_wins (U : UserId) (s1 s2 : SocketId)
    (rest : List (SocketId × InEvent)) (hne : s1 ≠ s2)
    (hrest : ∀ op ∈ rest, op.1 ≠ s1) :
    mapGet (runOps initState [(s1, InEvent.user_connected U),
        (s2, InEvent.user_connected U)]).userSockets U = some s2 ∧
    ∀ em ∈ runTrace (runOps initState [(s1, InEvent.user_connected U),
        (s2, InEvent.user_connected U)]) rest,
      em.target ≠ EmitTarget.toSocket s1 := by
  have hstate : (runOps initState [(s1, InEvent.user_connected U),
      (s2, InEvent.user_connected U)]).userSockets = [(U, s2)] := by
    simp [runOps, handleEvent, initState, mapSet]
  constructor
  · rw [hstate]
    simp [mapGet]
  · refine runTrace_no_emit_to_dead s1 rest _ ?_ hrest
    intro p hp
    rw [hstate] at hp
    simp only [List.mem_singleton] at hp
    rw [hp]
    exact fun hc => hne hc.symm

theorem c9_witness :
    mapGet (runOps initState [("a", InEvent.user_connected "U1"),
        ("b", InEvent.user_connected "U1")]).userSockets "U1" = some "b" ∧
    ∀ em ∈ runTrace (runOps initState [("a", InEvent.user_connected "U1"),
        ("b", InEvent.user_connected "U1")])
        [("c", InEvent.follow_request "U1" "R" "N" "I"),
         ("b", InEvent.send_message "U1" "X" "hi"
           (Except.ok ⟨1, "U1", "X", "hi"⟩))],
      em.target ≠ EmitTarget.toSocket "a" :=
  c9_last_connection_wins "U1" "a" "b" _ (by decide) (by decide)

/-- Claim C10: every inbound event other than `user_connected`,
`update_activity` and `disconnect` (the profile, follow and
send-message handlers, in both success and failure branch) leaves the
whole server state — registry, activity map and handshake auth —
unchanged. -/
theorem c10_router_events_pure (st : SocketState) (sid : SocketId) (e : InEvent)
    (h : isRouterOnly e = true) : (handleEvent st sid e).1 = st :=
  handleEvent_router_frame st sid e h

theorem c10_witness :
    (handleEvent initState "s1" (InEvent.profile_updated "user-json")).1
      = initState :=
  c10_router_events_pure initState "s1" (InEvent.profile_updated "user-json") rfl

end Axolotl

